import Mathlib

/-!
Shallow embedding of packages/core/src/lib/clipboard.ts (OSC 52 clipboard
support with tmux / GNU Screen passthrough).

Text payloads are modelled as their byte lists (the bytes of
Buffer.from(text)); escape sequences written to the terminal are modelled as
lists of characters.  The output stream is modelled by its isTTY flag, the
process environment by the optional values of the TMUX and STY variables, and
a call's effect as a pair of the boolean return value and the optionally
written sequence.
-/

/-- Character of the standard base64 alphabet at index n (A-Z, a-z, 0-9, +, /),
as used by Buffer.toString with encoding base64. -/
def b64char (n : Nat) : Char :=
  if n < 26 then Char.ofNat (n + 65)
  else if n < 52 then Char.ofNat (n + 71)
  else if n < 62 then Char.ofNat (n - 4)
  else if n = 62 then '+'
  else '/'

/-- Index of a character in the base64 alphabet (inverse of b64char on 0..63). -/
def b64val (c : Char) : Nat :=
  if 65 ≤ c.toNat ∧ c.toNat ≤ 90 then c.toNat - 65
  else if 97 ≤ c.toNat ∧ c.toNat ≤ 122 then c.toNat - 71
  else if 48 ≤ c.toNat ∧ c.toNat ≤ 57 then c.toNat + 4
  else if c = '+' then 62
  else if c = '/' then 63
  else 0

/-- Standard base64 encoding (with = padding) of a byte list, as computed by
Buffer.from(text).toString with encoding base64 in copyToClipboard. -/
def base64Encode : List Nat → List Char
  | [] => []
  | [a] => [b64char (a / 4), b64char (a % 4 * 16), '=', '=']
  | [a, b] => [b64char (a / 4), b64char (a % 4 * 16 + b / 16), b64char (b % 16 * 4), '=']
  | a :: b :: c :: rest =>
      b64char (a / 4) :: b64char (a % 4 * 16 + b / 16) :: b64char (b % 16 * 4 + c / 64)
        :: b64char (c % 64) :: base64Encode rest

/-- Standard base64 decoding of a padded base64 text back to a byte list. -/
def base64Decode : List Char → List Nat
  | w :: x :: y :: z :: rest =>
      if z = '=' then
        if y = '=' then [b64val w * 4 + b64val x / 16]
        else [b64val w * 4 + b64val x / 16, b64val x % 16 * 16 + b64val y / 4]
      else
        (b64val w * 4 + b64val x / 16) :: (b64val x % 16 * 16 + b64val y / 4)
          :: (b64val y % 4 * 64 + b64val z) :: base64Decode rest
  | _ => []

/-- ESC, the escape control byte 0x1b. -/
def esc : Char := Char.ofNat 27

/-- Output stream, reduced to the only property the code reads: isTTY. -/
structure OutStream where
  isTTY : Bool
deriving DecidableEq

/-- Snapshot of the process environment variables the code reads. -/
structure Env where
  tmux : Option (List Char)
  sty : Option (List Char)
deriving DecidableEq

/-- ClipboardOptions of clipboard.ts: an optional stream (defaulting to
process.stdout) and an optional selection target (defaulting to c). -/
structure ClipboardOptions where
  stream : Option OutStream
  target : Option Char
deriving DecidableEq

/-- JavaScript truthiness of an optional string environment value: undefined
and the empty string are falsy, every other string is truthy. -/
def jsTruthy : Option (List Char) → Bool
  | none => false
  | some s => !s.isEmpty

/-- Base OSC 52 sequence built at clipboard.ts line 72:
ESC ] 52 ; target ; base64 ESC backslash. -/
def oscBase (target : Char) (text : List Nat) : List Char :=
  [esc, ']', '5', '2', ';', target, ';'] ++ base64Encode text ++ [esc, '\\']

/-- Base OSC 52 clear sequence built at clipboard.ts line 118 (empty base64
segment): ESC ] 52 ; target ; ESC backslash. -/
def oscClear (target : Char) : List Char :=
  [esc, ']', '5', '2', ';', target, ';', esc, '\\']

/-- Replace every ESC character by two ESC characters, the effect of
wrapped.replace of the global ESC pattern with ESC ESC. -/
def doubleEsc : List Char → List Char
  | [] => []
  | c :: rest => if c = esc then esc :: esc :: doubleEsc rest else c :: doubleEsc rest

/-- One iteration of the tmux passthrough loop body: double every ESC, then
wrap as ESC P tmux ; wrapped ESC backslash. -/
def tmuxWrapStep (s : List Char) : List Char :=
  [esc, 'P', 't', 'm', 'u', 'x', ';'] ++ doubleEsc s ++ [esc, '\\']

/-- The tmux passthrough loop of clipboard.ts lines 82-87, run n times. -/
def tmuxWrap : Nat → List Char → List Char
  | 0, s => s
  | n + 1, s => tmuxWrapStep (tmuxWrap n s)

/-- GNU Screen passthrough of clipboard.ts lines 92-93:
ESC P doubled-sequence ESC backslash. -/
def screenWrap (s : List Char) : List Char :=
  [esc, 'P'] ++ doubleEsc s ++ [esc, '\\']

/-- Tmux nesting level computed at clipboard.ts line 81: the number of commas
in the TMUX environment value, plus one. -/
def tmuxLevel (v : List Char) : Nat := v.count ',' + 1

/-- Embedding of copyToClipboard (clipboard.ts lines 60-101).  Returns the
boolean result together with the sequence written to the stream, if any. -/
def copyToClipboard (text : List Nat) (options : ClipboardOptions) (env : Env)
    (stdout : OutStream) : Bool × Option (List Char) :=
  let stream := options.stream.getD stdout
  let target := options.target.getD 'c'
  if !stream.isTTY then (false, none)
  else
    let osc52 := oscBase target text
    let sequence :=
      if jsTruthy env.tmux then
        tmuxWrap (tmuxLevel (env.tmux.getD [])) osc52
      else if jsTruthy env.sty then
        screenWrap osc52
      else osc52
    (true, some sequence)

/-- Embedding of clearClipboard (clipboard.ts lines 109-139). -/
def clearClipboard (options : ClipboardOptions) (env : Env)
    (stdout : OutStream) : Bool × Option (List Char) :=
  let stream := options.stream.getD stdout
  let target := options.target.getD 'c'
  if !stream.isTTY then (false, none)
  else
    let osc52 := oscClear target
    let sequence :=
      if jsTruthy env.tmux then
        tmuxWrap (tmuxLevel (env.tmux.getD [])) osc52
      else if jsTruthy env.sty then
        screenWrap osc52
      else osc52
    (true, some sequence)

/-- Number of ESC characters in a sequence. -/
def countEsc : List Char → Nat
  | [] => 0
  | c :: rest => (if c = esc then 1 else 0) + countEsc rest

/-- Number of non-overlapping occurrences of the two-character doubled-escape
ESC ESC in a sequence, scanning left to right as the global JavaScript
pattern match in the tests does. -/
def countEscPairs : List Char → Nat
  | [] => 0
  | [_] => 0
  | c1 :: c2 :: rest =>
      if c1 = esc ∧ c2 = esc then 1 + countEscPairs rest else countEscPairs (c2 :: rest)

/-- Tmux passthrough header ESC P tmux ; . -/
def tmuxHeader : List Char := [esc, 'P', 't', 'm', 'u', 'x', ';']

/-- Number of positions of a sequence at which the tmux passthrough header
occurs (occurrences may overlap). -/
def countTmuxHeaders : List Char → Nat
  | [] => 0
  | c :: rest => (if (c :: rest).take 7 = tmuxHeader then 1 else 0) + countTmuxHeaders rest

/-- Middle segment of a base OSC 52 sequence: the text strictly between the
second semicolon (the seventh character) and the two-byte string terminator. -/
def middleSegment (s : List Char) : List Char := ((s.drop 7).dropLast).dropLast

example : base64Encode [104, 101, 108, 108, 111] = ['a', 'G', 'V', 's', 'b', 'G', '8', '='] := by
  decide

example : base64Decode ['a', 'G', 'V', 's', 'b', 'G', '8', '='] = [104, 101, 108, 108, 111] := by
  decide

theorem b64val_b64char : ∀ n < 64, b64val (b64char n) = n := by decide

theorem b64char_ne_pad : ∀ n < 64, b64char n ≠ '=' := by decide

theorem b64char_ne_esc : ∀ n < 64, b64char n ≠ esc := by decide

/-- Every character produced by the base64 encoder of a byte list is either a
padding = or an alphabet character of index below 64. -/
theorem mem_base64Encode (l : List Nat) (h : ∀ b ∈ l, b < 256) :
    ∀ c ∈ base64Encode l, c = '=' ∨ ∃ n, n < 64 ∧ c = b64char n := by
  induction l using base64Encode.induct with
  | case1 => intro c hc; simp [base64Encode] at hc
  | case2 a =>
    intro c hc
    have ha : a < 256 := h a (by simp)
    simp only [base64Encode, List.mem_cons, List.not_mem_nil, or_false] at hc
    rcases hc with h1 | h1 | h1 | h1
    · exact Or.inr ⟨a / 4, by omega, h1⟩
    · exact Or.inr ⟨a % 4 * 16, by omega, h1⟩
    · exact Or.inl h1
    · exact Or.inl h1
  | case3 a b =>
    intro c hc
    have ha : a < 256 := h a (by simp)
    have hb : b < 256 := h b (by simp)
    simp only [base64Encode, List.mem_cons, List.not_mem_nil, or_false] at hc
    rcases hc with h1 | h1 | h1 | h1
    · exact Or.inr ⟨a / 4, by omega, h1⟩
    · exact Or.inr ⟨a % 4 * 16 + b / 16, by omega, h1⟩
    · exact Or.inr ⟨b % 16 * 4, by omega, h1⟩
    · exact Or.inl h1
  | case4 a b c0 rest ih =>
    intro c hc
    have ha : a < 256 := h a (by simp)
    have hb : b < 256 := h b (by simp)
    have hc0 : c0 < 256 := h c0 (by simp)
    simp only [base64Encode, List.mem_cons] at hc
    rcases hc with h1 | h1 | h1 | h1 | h1
    · exact Or.inr ⟨a / 4, by omega, h1⟩
    · exact Or.inr ⟨a % 4 * 16 + b / 16, by omega, h1⟩
    · exact Or.inr ⟨b % 16 * 4 + c0 / 64, by omega, h1⟩
    · exact Or.inr ⟨c0 % 64, by omega, h1⟩
    · exact ih (fun x hx => h x (by simp [hx])) c h1

/-- No character of a base64 encoding of bytes is the ESC byte. -/
theorem base64Encode_ne_esc (l : List Nat) (h : ∀ b ∈ l, b < 256) :
    ∀ c ∈ base64Encode l, c ≠ esc := by
  intro c hc
  rcases mem_base64Encode l h c hc with h1 | ⟨n, hn, h1⟩
  · subst h1; decide
  · subst h1; exact b64char_ne_esc n hn

/-- Decoding a base64 encoding recovers the original byte list. -/
theorem base64Decode_base64Encode (l : List Nat) (h : ∀ b ∈ l, b < 256) :
    base64Decode (base64Encode l) = l := by
  induction l using base64Encode.induct with
  | case1 => simp [base64Encode, base64Decode]
  | case2 a =>
    have ha : a < 256 := h a (by simp)
    show base64Decode [b64char (a / 4), b64char (a % 4 * 16), '=', '='] = [a]
    simp only [base64Decode, if_pos rfl, if_true]
    rw [b64val_b64char (a / 4) (by omega), b64val_b64char (a % 4 * 16) (by omega)]
    have h1 : a / 4 * 4 + a % 4 * 16 / 16 = a := by omega
    rw [h1]
  | case3 a b =>
    have ha : a < 256 := h a (by simp)
    have hb : b < 256 := h b (by simp)
    have hpad : b64char (b % 16 * 4) ≠ '=' := b64char_ne_pad _ (by omega)
    show base64Decode
      [b64char (a / 4), b64char (a % 4 * 16 + b / 16), b64char (b % 16 * 4), '='] = [a, b]
    simp only [base64Decode, if_pos rfl, if_true, if_neg hpad]
    rw [b64val_b64char (a / 4) (by omega), b64val_b64char (a % 4 * 16 + b / 16) (by omega),
      b64val_b64char (b % 16 * 4) (by omega)]
    have h1 : a / 4 * 4 + (a % 4 * 16 + b / 16) / 16 = a := by omega
    have h2 : (a % 4 * 16 + b / 16) % 16 * 16 + b % 16 * 4 / 4 = b := by omega
    rw [h1, h2]
  | case4 a b c rest ih =>
    have ha : a < 256 := h a (by simp)
    have hb : b < 256 := h b (by simp)
    have hc : c < 256 := h c (by simp)
    have hpad : b64char (c % 64) ≠ '=' := b64char_ne_pad _ (by omega)
    show base64Decode (b64char (a / 4) :: b64char (a % 4 * 16 + b / 16)
      :: b64char (b % 16 * 4 + c / 64) :: b64char (c % 64) :: base64Encode rest) = a :: b :: c :: rest
    simp only [base64Decode, if_neg hpad]
    rw [b64val_b64char (a / 4) (by omega), b64val_b64char (a % 4 * 16 + b / 16) (by omega),
      b64val_b64char (b % 16 * 4 + c / 64) (by omega), b64val_b64char (c % 64) (by omega),
      ih (fun x hx => h x (by simp [hx]))]
    have h1 : a / 4 * 4 + (a % 4 * 16 + b / 16) / 16 = a := by omega
    have h2 : (a % 4 * 16 + b / 16) % 16 * 16 + (b % 16 * 4 + c / 64) / 4 = b := by omega
    have h3 : (b % 16 * 4 + c / 64) % 4 * 64 + c % 64 = c := by omega
    rw [h1, h2, h3]

theorem doubleEsc_cons_esc (u : List Char) : doubleEsc (esc :: u) = esc :: esc :: doubleEsc u := by
  simp [doubleEsc]

theorem doubleEsc_cons_ne {c : Char} (hc : c ≠ esc) (u : List Char) :
    doubleEsc (c :: u) = c :: doubleEsc u := by
  simp [doubleEsc, hc]

theorem doubleEsc_append (u v : List Char) :
    doubleEsc (u ++ v) = doubleEsc u ++ doubleEsc v := by
  induction u with
  | nil => rfl
  | cons c rest ih =>
    by_cases hc : c = esc
    · subst hc; simp only [List.cons_append, doubleEsc_cons_esc, ih, List.cons_append]
    · simp only [List.cons_append, doubleEsc_cons_ne hc, ih]

theorem countEsc_cons_esc (u : List Char) : countEsc (esc :: u) = 1 + countEsc u := by
  simp [countEsc]

theorem countEsc_cons_ne {c : Char} (hc : c ≠ esc) (u : List Char) :
    countEsc (c :: u) = countEsc u := by
  simp [countEsc, hc]

theorem countEsc_append (u v : List Char) : countEsc (u ++ v) = countEsc u + countEsc v := by
  induction u with
  | nil => simp [countEsc]
  | cons c rest ih => simp only [List.cons_append, countEsc, List.append_eq, ih]; omega

theorem countEsc_doubleEsc (s : List Char) : countEsc (doubleEsc s) = 2 * countEsc s := by
  induction s with
  | nil => rfl
  | cons c rest ih =>
    by_cases hc : c = esc
    · subst hc
      rw [doubleEsc_cons_esc, countEsc_cons_esc, countEsc_cons_esc, ih, countEsc_cons_esc]
      omega
    · rw [doubleEsc_cons_ne hc, countEsc_cons_ne hc, countEsc_cons_ne hc, ih]

theorem countEscPairs_cons_of_ne {c : Char} (hc : c ≠ esc) (u : List Char) :
    countEscPairs (c :: u) = countEscPairs u := by
  cases u with
  | nil => rfl
  | cons b r =>
    have : ¬(c = esc ∧ b = esc) := fun h => hc h.1
    simp only [countEscPairs, if_neg this]

theorem countEscPairs_cons_cons_of_ne {c2 : Char} (hc : c2 ≠ esc) (c1 : Char) (u : List Char) :
    countEscPairs (c1 :: c2 :: u) = countEscPairs (c2 :: u) := by
  have : ¬(c1 = esc ∧ c2 = esc) := fun h => hc h.2
  simp only [countEscPairs, if_neg this]

theorem countEscPairs_esc_esc (u : List Char) :
    countEscPairs (esc :: esc :: u) = 1 + countEscPairs u := by
  simp [countEscPairs]

theorem countEscPairs_doubleEsc_append (s t : List Char) :
    countEscPairs (doubleEsc s ++ t) = countEsc s + countEscPairs t := by
  induction s with
  | nil => simp [doubleEsc, countEsc]
  | cons c rest ih =>
    by_cases hc : c = esc
    · subst hc
      rw [doubleEsc_cons_esc, countEsc_cons_esc, List.cons_append, List.cons_append,
        countEscPairs_esc_esc, ih]
      omega
    · rw [doubleEsc_cons_ne hc, countEsc_cons_ne hc, List.cons_append,
        countEscPairs_cons_of_ne hc, ih]

theorem countEscPairs_noEsc_append {u : List Char} (hu : ∀ c ∈ u, c ≠ esc) (v : List Char) :
    countEscPairs (u ++ v) = countEscPairs v := by
  induction u with
  | nil => rfl
  | cons c rest ih =>
    rw [List.cons_append, countEscPairs_cons_of_ne (hu c (by simp)),
      ih (fun x hx => hu x (by simp [hx]))]

/-- The base OSC 52 sequence contains at least two ESC bytes (the opening one
and the one of the string terminator). -/
theorem countEsc_oscBase (tg : Char) (P : List Nat) : 2 ≤ countEsc (oscBase tg P) := by
  have e1 : oscBase tg P
      = esc :: ([']', '5', '2', ';', tg, ';'] ++ base64Encode P ++ [esc, '\\']) := by
    simp [oscBase]
  rw [e1, countEsc_cons_esc, countEsc_append, countEsc_append]
  have h2 : countEsc [esc, '\\'] = 1 := by decide
  omega

/-- The base OSC 52 sequence contains no two adjacent ESC bytes. -/
theorem countEscPairs_oscBase (tg : Char) (P : List Nat) (h : ∀ b ∈ P, b < 256) :
    countEscPairs (oscBase tg P) = 0 := by
  have hB : ∀ c ∈ base64Encode P, c ≠ esc := base64Encode_ne_esc P h
  have e1 : oscBase tg P
      = esc :: ']' :: '5' :: '2' :: ';' :: tg :: ';' :: (base64Encode P ++ [esc, '\\']) := by
    simp [oscBase]
  rw [e1]
  rw [countEscPairs_cons_cons_of_ne (by decide)]
  rw [countEscPairs_cons_of_ne (by decide)]
  rw [countEscPairs_cons_of_ne (by decide)]
  rw [countEscPairs_cons_of_ne (by decide)]
  rw [countEscPairs_cons_of_ne (by decide)]
  rw [countEscPairs_cons_cons_of_ne (by decide)]
  rw [countEscPairs_cons_of_ne (by decide)]
  rw [countEscPairs_noEsc_append hB]
  decide

theorem countEsc_tmuxWrapStep (s : List Char) :
    countEsc (tmuxWrapStep s) = 2 * countEsc s + 2 := by
  have e1 : tmuxWrapStep s = [esc, 'P', 't', 'm', 'u', 'x', ';'] ++ doubleEsc s ++ [esc, '\\'] :=
    rfl
  rw [e1, countEsc_append, countEsc_append, countEsc_doubleEsc]
  have h1 : countEsc [esc, 'P', 't', 'm', 'u', 'x', ';'] = 1 := by decide
  have h2 : countEsc [esc, '\\'] = 1 := by decide
  omega

/-- One application of the tmux wrap turns every ESC of the input into exactly
one non-overlapping doubled-escape occurrence, and creates no other. -/
theorem countEscPairs_tmuxWrapStep (s : List Char) :
    countEscPairs (tmuxWrapStep s) = countEsc s := by
  have e1 : tmuxWrapStep s
      = esc :: 'P' :: 't' :: 'm' :: 'u' :: 'x' :: ';' :: (doubleEsc s ++ [esc, '\\']) := by
    simp [tmuxWrapStep]
  rw [e1]
  rw [countEscPairs_cons_cons_of_ne (by decide)]
  rw [countEscPairs_cons_of_ne (by decide)]
  rw [countEscPairs_cons_of_ne (by decide)]
  rw [countEscPairs_cons_of_ne (by decide)]
  rw [countEscPairs_cons_of_ne (by decide)]
  rw [countEscPairs_cons_of_ne (by decide)]
  rw [countEscPairs_cons_of_ne (by decide)]
  rw [countEscPairs_doubleEsc_append]
  have h2 : countEscPairs [esc, '\\'] = 0 := by decide
  omega

theorem countEsc_tmuxWrap_ge (tg : Char) (P : List Nat) :
    ∀ d, 2 ≤ countEsc (tmuxWrap d (oscBase tg P)) := by
  intro d
  induction d with
  | zero => exact countEsc_oscBase tg P
  | succ n ih =>
    have e1 : tmuxWrap (n + 1) (oscBase tg P) = tmuxWrapStep (tmuxWrap n (oscBase tg P)) := rfl
    rw [e1, countEsc_tmuxWrapStep]
    omega

/-- The number of non-overlapping doubled-escape occurrences strictly
increases with the tmux nesting depth. -/
theorem countEscPairs_tmuxWrap_mono (tg : Char) (P : List Nat) (h : ∀ b ∈ P, b < 256) (d : Nat) :
    countEscPairs (tmuxWrap d (oscBase tg P)) < countEscPairs (tmuxWrap (d + 1) (oscBase tg P)) := by
  cases d with
  | zero =>
    have e1 : tmuxWrap 1 (oscBase tg P) = tmuxWrapStep (oscBase tg P) := rfl
    have e0 : tmuxWrap 0 (oscBase tg P) = oscBase tg P := rfl
    rw [e0, e1, countEscPairs_oscBase tg P h, countEscPairs_tmuxWrapStep]
    have := countEsc_oscBase tg P
    omega
  | succ n =>
    have e1 : tmuxWrap (n + 1) (oscBase tg P) = tmuxWrapStep (tmuxWrap n (oscBase tg P)) := rfl
    have e2 : tmuxWrap (n + 2) (oscBase tg P)
        = tmuxWrapStep (tmuxWrapStep (tmuxWrap n (oscBase tg P))) := rfl
    rw [e1, e2, countEscPairs_tmuxWrapStep, countEscPairs_tmuxWrapStep, countEsc_tmuxWrapStep]
    omega

theorem cth_le_cons (c : Char) (u : List Char) :
    countTmuxHeaders u ≤ countTmuxHeaders (c :: u) := by
  simp only [countTmuxHeaders]
  exact Nat.le_add_left _ _

theorem cth_append_le (x u : List Char) :
    countTmuxHeaders u ≤ countTmuxHeaders (x ++ u) := by
  induction x with
  | nil => exact Nat.le_refl _
  | cons c rest ih => exact le_trans ih (cth_le_cons c (rest ++ u))

theorem cth_at_head (u : List Char) :
    countTmuxHeaders (esc :: 'P' :: 't' :: 'm' :: 'u' :: 'x' :: ';' :: u)
      = 1 + countTmuxHeaders ('P' :: 't' :: 'm' :: 'u' :: 'x' :: ';' :: u) := by
  have hc : (esc :: 'P' :: 't' :: 'm' :: 'u' :: 'x' :: ';' :: u).take 7 = tmuxHeader := rfl
  rw [countTmuxHeaders, if_pos hc]

/-- At tmux depth 2 the wrapped sequence contains the passthrough header at
least twice: once literally at the start, and once inside the doubled copy of
the inner header (whose doubled ESC still exposes an occurrence). -/
theorem cth_tmuxWrap_two (tg : Char) (P : List Nat) :
    2 ≤ countTmuxHeaders (tmuxWrap 2 (oscBase tg P)) := by
  have h1 : tmuxWrapStep (oscBase tg P)
      = esc :: 'P' :: 't' :: 'm' :: 'u' :: 'x' :: ';' :: (doubleEsc (oscBase tg P) ++ [esc, '\\']) := by
    simp [tmuxWrapStep]
  have h2 : doubleEsc (esc :: 'P' :: 't' :: 'm' :: 'u' :: 'x' :: ';' :: (doubleEsc (oscBase tg P) ++ [esc, '\\']))
      = esc :: esc :: 'P' :: 't' :: 'm' :: 'u' :: 'x' :: ';'
        :: doubleEsc (doubleEsc (oscBase tg P) ++ [esc, '\\']) := by
    rw [doubleEsc_cons_esc, doubleEsc_cons_ne (by decide), doubleEsc_cons_ne (by decide),
      doubleEsc_cons_ne (by decide), doubleEsc_cons_ne (by decide), doubleEsc_cons_ne (by decide),
      doubleEsc_cons_ne (by decide)]
  have hw : tmuxWrap 2 (oscBase tg P)
      = esc :: 'P' :: 't' :: 'm' :: 'u' :: 'x' :: ';'
        :: esc :: esc :: 'P' :: 't' :: 'm' :: 'u' :: 'x' :: ';'
          :: (doubleEsc (doubleEsc (oscBase tg P) ++ [esc, '\\']) ++ [esc, '\\']) := by
    show tmuxWrapStep (tmuxWrapStep (oscBase tg P)) = _
    rw [h1]
    show [esc, 'P', 't', 'm', 'u', 'x', ';']
        ++ doubleEsc (esc :: 'P' :: 't' :: 'm' :: 'u' :: 'x' :: ';'
          :: (doubleEsc (oscBase tg P) ++ [esc, '\\'])) ++ [esc, '\\'] = _
    rw [h2]
    simp
  rw [hw, cth_at_head]
  show 2 ≤ 1 + countTmuxHeaders (['P', 't', 'm', 'u', 'x', ';', esc]
    ++ (esc :: 'P' :: 't' :: 'm' :: 'u' :: 'x' :: ';'
      :: (doubleEsc (doubleEsc (oscBase tg P) ++ [esc, '\\']) ++ [esc, '\\'])))
  have hs : 1 ≤ countTmuxHeaders (esc :: 'P' :: 't' :: 'm' :: 'u' :: 'x' :: ';'
      :: (doubleEsc (doubleEsc (oscBase tg P) ++ [esc, '\\']) ++ [esc, '\\'])) := by
    rw [cth_at_head]
    omega
  have hm1 := cth_append_le ['P', 't', 'm', 'u', 'x', ';', esc]
    (esc :: 'P' :: 't' :: 'm' :: 'u' :: 'x' :: ';'
      :: (doubleEsc (doubleEsc (oscBase tg P) ++ [esc, '\\']) ++ [esc, '\\']))
  omega

/-- Evaluation of copyToClipboard when the resolved stream is a TTY and no
multiplexer variable is truthy: the bare base sequence is written. -/
theorem copy_eval_plain (text : List Nat) (opts : ClipboardOptions) (env : Env)
    (stdout : OutStream) (hmux : env.tmux = none) (hsty : env.sty = none)
    (htty : (opts.stream.getD stdout).isTTY = true) :
    copyToClipboard text opts env stdout
      = (true, some (oscBase (opts.target.getD 'c') text)) := by
  unfold copyToClipboard
  simp [htty, hmux, hsty, jsTruthy]

/-- C2: with no multiplexer environment variable and an interactive stream,
the written sequence for selection target t in c, p, s, q is exactly
ESC ] 52 ; t ; base64 ESC backslash; it starts with ESC ] 52 ; t ; and ends
with the two-byte string terminator, never the single-byte BEL. -/
theorem claim2_theorem (text : List Nat) (opts : ClipboardOptions) (env : Env)
    (stdout : OutStream) (t : Char) (ht : opts.target = some t)
    (htgt : t = 'c' ∨ t = 'p' ∨ t = 's' ∨ t = 'q')
    (hmux : env.tmux = none) (hsty : env.sty = none)
    (htty : (opts.stream.getD stdout).isTTY = true) :
    copyToClipboard text opts env stdout
      = (true, some ([esc, ']', '5', '2', ';', t, ';'] ++ base64Encode text ++ [esc, '\\']))
    ∧ (oscBase t text).take 7 = [esc, ']', '5', '2', ';', t, ';']
    ∧ (oscBase t text).drop ((oscBase t text).length - 2) = [esc, '\\']
    ∧ (oscBase t text).getLast? ≠ some (Char.ofNat 7) := by
  have e1 : oscBase t text
      = ([esc, ']', '5', '2', ';', t, ';'] ++ base64Encode text) ++ [esc, '\\'] := by
    simp [oscBase]
  have hlast : (oscBase t text).getLast? = some '\\' := by
    rw [e1, show ([esc, '\\'] : List Char) = [esc] ++ ['\\'] from rfl, ← List.append_assoc,
      List.getLast?_concat]
  refine ⟨?_, ?_, ?_, ?_⟩
  · rw [copy_eval_plain text opts env stdout hmux hsty htty, ht]
    simp [oscBase]
  · rw [show oscBase t text
        = [esc, ']', '5', '2', ';', t, ';'] ++ (base64Encode text ++ [esc, '\\']) from by
      simp [oscBase]]
    exact List.take_left' rfl
  · rw [e1, List.length_append]
    have h2 : ([esc, '\\'] : List Char).length = 2 := rfl
    rw [h2, Nat.add_sub_cancel]
    exact List.drop_left _ _
  · rw [hlast]
    intro hcon
    have : ('\\' : Char) = Char.ofNat 7 := by injection hcon
    exact absurd this (by decide)

/-- C2 witness at a concrete input. -/
theorem claim2_witness :
    copyToClipboard [104] ⟨some ⟨true⟩, some 'p'⟩ ⟨none, none⟩ ⟨false⟩
      = (true, some ([esc, ']', '5', '2', ';', 'p', ';'] ++ base64Encode [104] ++ [esc, '\\']))
    ∧ (oscBase 'p' [104]).take 7 = [esc, ']', '5', '2', ';', 'p', ';']
    ∧ (oscBase 'p' [104]).drop ((oscBase 'p' [104]).length - 2) = [esc, '\\']
    ∧ (oscBase 'p' [104]).getLast? ≠ some (Char.ofNat 7) :=
  claim2_theorem [104] ⟨some ⟨true⟩, some 'p'⟩ ⟨none, none⟩ ⟨false⟩ 'p' rfl
    (by decide) rfl rfl rfl

/-- C4: both functions return true exactly when a sequence was handed to the
stream, and a non-interactive stream makes both return false with no write. -/
theorem claim4_theorem (text : List Nat) (opts : ClipboardOptions) (env : Env)
    (stdout : OutStream) :
    ((copyToClipboard text opts env stdout).1
      = ((copyToClipboard text opts env stdout).2).isSome)
    ∧ ((clearClipboard opts env stdout).1 = ((clearClipboard opts env stdout).2).isSome)
    ∧ ((opts.stream.getD stdout).isTTY = false →
        copyToClipboard text opts env stdout = (false, none)
        ∧ clearClipboard opts env stdout = (false, none)) := by
  unfold copyToClipboard clearClipboard
  by_cases h : (opts.stream.getD stdout).isTTY = true <;>
    simp [h]

/-- C4 witness: a non-interactive stream yields false and no write. -/
theorem claim4_witness :
    copyToClipboard [104] ⟨some ⟨false⟩, none⟩ ⟨none, none⟩ ⟨true⟩ = (false, none)
    ∧ clearClipboard ⟨some ⟨false⟩, none⟩ ⟨none, none⟩ ⟨true⟩ = (false, none) :=
  (claim4_theorem [104] ⟨some ⟨false⟩, none⟩ ⟨none, none⟩ ⟨true⟩).2.2 rfl

/-- C5: base64-decoding the middle segment of the base sequence (between the
second semicolon and the string terminator) recovers the payload exactly,
whatever its bytes. -/
theorem claim5_theorem (text : List Nat) (opts : ClipboardOptions) (env : Env)
    (stdout : OutStream) (hbytes : ∀ b ∈ text, b < 256)
    (hmux : env.tmux = none) (hsty : env.sty = none)
    (htty : (opts.stream.getD stdout).isTTY = true) :
    copyToClipboard text opts env stdout
      = (true, some (oscBase (opts.target.getD 'c') text))
    ∧ base64Decode (middleSegment (oscBase (opts.target.getD 'c') text)) = text := by
  refine ⟨copy_eval_plain text opts env stdout hmux hsty htty, ?_⟩
  have hmid : middleSegment (oscBase (opts.target.getD 'c') text) = base64Encode text := by
    unfold middleSegment
    rw [show oscBase (opts.target.getD 'c') text
        = [esc, ']', '5', '2', ';', opts.target.getD 'c', ';']
          ++ (base64Encode text ++ [esc, '\\']) from by simp [oscBase]]
    rw [List.drop_left'
      (show ([esc, ']', '5', '2', ';', opts.target.getD 'c', ';'] : List Char).length = 7
        from rfl)]
    rw [show base64Encode text ++ [esc, '\\']
        = (base64Encode text ++ [esc]) ++ ['\\'] from by simp]
    rw [List.dropLast_concat, List.dropLast_concat]
  rw [hmid]
  exact base64Decode_base64Encode text hbytes

/-- C5 witness at a concrete two-byte payload. -/
theorem claim5_witness :
    copyToClipboard [104, 105] ⟨some ⟨true⟩, none⟩ ⟨none, none⟩ ⟨false⟩
      = (true, some (oscBase 'c' [104, 105]))
    ∧ base64Decode (middleSegment (oscBase 'c' [104, 105])) = [104, 105] :=
  claim5_theorem [104, 105] ⟨some ⟨true⟩, none⟩ ⟨none, none⟩ ⟨false⟩
    (by decide) rfl rfl rfl

/-- C7: with the Clipboard target, no multiplexer variables and an interactive
stream, clearClipboard — and equally a copy of the empty payload — writes the
literal sequence ESC ] 52 ; c ; ESC backslash and returns true. -/
theorem claim7_theorem (opts : ClipboardOptions) (env : Env) (stdout : OutStream)
    (htgt : opts.target.getD 'c' = 'c')
    (hmux : env.tmux = none) (hsty : env.sty = none)
    (htty : (opts.stream.getD stdout).isTTY = true) :
    clearClipboard opts env stdout
      = (true, some [esc, ']', '5', '2', ';', 'c', ';', esc, '\\'])
    ∧ copyToClipboard [] opts env stdout
      = (true, some [esc, ']', '5', '2', ';', 'c', ';', esc, '\\']) := by
  constructor
  · unfold clearClipboard
    simp [htty, hmux, hsty, jsTruthy, htgt, oscClear]
  · rw [copy_eval_plain [] opts env stdout hmux hsty htty, htgt]
    simp [oscBase, base64Encode]

/-- C7 witness at a concrete environment. -/
theorem claim7_witness :
    clearClipboard ⟨some ⟨true⟩, none⟩ ⟨none, none⟩ ⟨false⟩
      = (true, some [esc, ']', '5', '2', ';', 'c', ';', esc, '\\'])
    ∧ copyToClipboard [] ⟨some ⟨true⟩, none⟩ ⟨none, none⟩ ⟨false⟩
      = (true, some [esc, ']', '5', '2', ';', 'c', ';', esc, '\\']) :=
  claim7_theorem ⟨some ⟨true⟩, none⟩ ⟨none, none⟩ ⟨false⟩ rfl rfl rfl rfl

/-- C10: for every options value, environment and stdout, copying the empty
payload writes exactly the same sequence and returns the same boolean as
clearClipboard, since the base64 encoding of the empty payload is empty. -/
theorem claim10_theorem (opts : ClipboardOptions) (env : Env) (stdout : OutStream) :
    copyToClipboard [] opts env stdout = clearClipboard opts env stdout := by
  have h : oscBase (opts.target.getD 'c') [] = oscClear (opts.target.getD 'c') := by
    simp [oscBase, oscClear, base64Encode]
  unfold copyToClipboard clearClipboard
  simp only [h]

/-- Evaluation of copyToClipboard under a truthy TMUX variable: the base
sequence is wrapped commas-plus-one times. -/
theorem copy_eval_tmux (text : List Nat) (opts : ClipboardOptions) (env : Env)
    (stdout : OutStream) (v : List Char) (htmux : env.tmux = some v) (hv : v ≠ [])
    (htty : (opts.stream.getD stdout).isTTY = true) :
    copyToClipboard text opts env stdout
      = (true, some (tmuxWrap (v.count ',' + 1) (oscBase (opts.target.getD 'c') text))) := by
  unfold copyToClipboard
  simp [htty, htmux, jsTruthy, hv, tmuxLevel]

/-- Evaluation of clearClipboard under a truthy TMUX variable. -/
theorem clear_eval_tmux (opts : ClipboardOptions) (env : Env)
    (stdout : OutStream) (v : List Char) (htmux : env.tmux = some v) (hv : v ≠ [])
    (htty : (opts.stream.getD stdout).isTTY = true) :
    clearClipboard opts env stdout
      = (true, some (tmuxWrap (v.count ',' + 1) (oscClear (opts.target.getD 'c')))) := by
  unfold clearClipboard
  simp [htty, htmux, jsTruthy, hv, tmuxLevel]

/-- Evaluation of copyToClipboard under no TMUX variable and a truthy STY
variable: the base sequence is wrapped once for GNU Screen. -/
theorem copy_eval_screen (text : List Nat) (opts : ClipboardOptions) (env : Env)
    (stdout : OutStream) (w : List Char) (hmux : env.tmux = none)
    (hsty : env.sty = some w) (hw : w ≠ [])
    (htty : (opts.stream.getD stdout).isTTY = true) :
    copyToClipboard text opts env stdout
      = (true, some (screenWrap (oscBase (opts.target.getD 'c') text))) := by
  unfold copyToClipboard
  simp [htty, hmux, hsty, jsTruthy, hw]

/-- C1 (amended: for a truthy, that is non-empty, TMUX value): the written
sequence is the base OSC 52 sequence wrapped exactly commas-plus-one times by
the transform that doubles every ESC and then frames with ESC P tmux ; and
the string terminator; at depth 2 the tmux header occurs at least twice, and
the count of non-overlapping doubled-escape occurrences strictly increases
with depth. -/
theorem claim1_theorem (text : List Nat) (opts : ClipboardOptions) (env : Env)
    (stdout : OutStream) (v : List Char) (d : Nat)
    (hbytes : ∀ b ∈ text, b < 256)
    (htmux : env.tmux = some v) (hv : v ≠ [])
    (htty : (opts.stream.getD stdout).isTTY = true) :
    copyToClipboard text opts env stdout
      = (true, some (tmuxWrap (v.count ',' + 1) (oscBase (opts.target.getD 'c') text)))
    ∧ 2 ≤ countTmuxHeaders (tmuxWrap 2 (oscBase (opts.target.getD 'c') text))
    ∧ countEscPairs (tmuxWrap d (oscBase (opts.target.getD 'c') text))
        < countEscPairs (tmuxWrap (d + 1) (oscBase (opts.target.getD 'c') text)) :=
  ⟨copy_eval_tmux text opts env stdout v htmux hv htty,
    cth_tmuxWrap_two (opts.target.getD 'c') text,
    countEscPairs_tmuxWrap_mono (opts.target.getD 'c') text hbytes d⟩

/-- C1 witness at TMUX value comma (depth 2) and depth index 0. -/
theorem claim1_witness :
    copyToClipboard [104] ⟨some ⟨true⟩, none⟩ ⟨some [','], none⟩ ⟨false⟩
      = (true, some (tmuxWrap 2 (oscBase 'c' [104])))
    ∧ 2 ≤ countTmuxHeaders (tmuxWrap 2 (oscBase 'c' [104]))
    ∧ countEscPairs (tmuxWrap 0 (oscBase 'c' [104]))
        < countEscPairs (tmuxWrap (0 + 1) (oscBase 'c' [104])) :=
  claim1_theorem [104] ⟨some ⟨true⟩, none⟩ ⟨some [','], none⟩ ⟨false⟩ [','] 0
    (by decide) rfl (by decide) rfl

/-- C1 counterexample: the TMUX variable set to the empty string contains
zero comma separators, so the claim demands one wrap, but the code treats the
empty value as falsy and writes the unwrapped base sequence. -/
theorem claim1_counterexample :
    copyToClipboard [104] ⟨some ⟨true⟩, none⟩ ⟨some [], none⟩ ⟨false⟩
      = (true, some (oscBase 'c' [104]))
    ∧ oscBase 'c' [104] ≠ tmuxWrap 1 (oscBase 'c' [104]) := by
  constructor
  · rfl
  · decide

/-- C3: the claim's gate does not exist in the code: ClipboardOptions of
clipboard.ts has no capability field at all, and with an interactive stream
copyToClipboard and clearClipboard always write a sequence and return true,
for every options value — there is no input on which they return false as the
claim (and clipboard.test.ts) requires for osc52 = false. -/
theorem claim3_theorem (text : List Nat) (opts : ClipboardOptions) (env : Env)
    (stdout : OutStream) (htty : (opts.stream.getD stdout).isTTY = true) :
    (copyToClipboard text opts env stdout).1 = true
    ∧ ((copyToClipboard text opts env stdout).2).isSome = true
    ∧ (clearClipboard opts env stdout).1 = true
    ∧ ((clearClipboard opts env stdout).2).isSome = true := by
  unfold copyToClipboard clearClipboard
  simp [htty]

/-- C3 witness at the test file's failing input: text test, interactive
stream. -/
theorem claim3_witness :
    (copyToClipboard [116, 101, 115, 116] ⟨some ⟨true⟩, none⟩ ⟨none, none⟩ ⟨false⟩).1 = true
    ∧ ((copyToClipboard [116, 101, 115, 116] ⟨some ⟨true⟩, none⟩ ⟨none, none⟩ ⟨false⟩).2).isSome
      = true
    ∧ (clearClipboard ⟨some ⟨true⟩, none⟩ ⟨none, none⟩ ⟨false⟩).1 = true
    ∧ ((clearClipboard ⟨some ⟨true⟩, none⟩ ⟨none, none⟩ ⟨false⟩).2).isSome = true :=
  claim3_theorem [116, 101, 115, 116] ⟨some ⟨true⟩, none⟩ ⟨none, none⟩ ⟨false⟩ rfl

/-- C6 (amended: for a truthy, that is non-empty, STY value): with no tmux
variable, the written sequence is ESC P, then the base sequence with every
ESC doubled, then the string terminator; it is wrapped exactly once, begins
with ESC P, and never begins with the tmux header ESC P tmux ; . -/
theorem claim6_theorem (text : List Nat) (opts : ClipboardOptions) (env : Env)
    (stdout : OutStream) (w : List Char)
    (hmux : env.tmux = none) (hsty : env.sty = some w) (hw : w ≠ [])
    (htty : (opts.stream.getD stdout).isTTY = true) :
    copyToClipboard text opts env stdout
      = (true, some ([esc, 'P']
          ++ doubleEsc (oscBase (opts.target.getD 'c') text) ++ [esc, '\\']))
    ∧ (screenWrap (oscBase (opts.target.getD 'c') text)).take 2 = [esc, 'P']
    ∧ (screenWrap (oscBase (opts.target.getD 'c') text)).take 7 ≠ tmuxHeader := by
  refine ⟨copy_eval_screen text opts env stdout w hmux hsty hw htty, ?_, ?_⟩
  · show ([esc, 'P']
      ++ (doubleEsc (oscBase (opts.target.getD 'c') text) ++ [esc, '\\'])).take 2 = [esc, 'P']
    exact List.take_left' rfl
  · have hshape : screenWrap (oscBase (opts.target.getD 'c') text)
        = esc :: 'P' :: esc :: esc
          :: (doubleEsc (']' :: '5' :: '2' :: ';' :: opts.target.getD 'c' :: ';'
              :: (base64Encode text ++ [esc, '\\'])) ++ [esc, '\\']) := by
      show [esc, 'P'] ++ (doubleEsc (oscBase (opts.target.getD 'c') text) ++ [esc, '\\']) = _
      rw [show oscBase (opts.target.getD 'c') text
          = esc :: (']' :: '5' :: '2' :: ';' :: opts.target.getD 'c' :: ';'
            :: (base64Encode text ++ [esc, '\\'])) from by simp [oscBase]]
      rw [doubleEsc_cons_esc]
      simp
    rw [hshape]
    intro hcon
    have h2 := congrArg (fun l => l[2]?) hcon
    simp only [List.getElem?_take] at h2
    rw [if_pos (by omega : (2 : Nat) < 7)] at h2
    have h4 : (esc :: 'P' :: esc :: esc
        :: (doubleEsc (']' :: '5' :: '2' :: ';' :: opts.target.getD 'c' :: ';'
            :: (base64Encode text ++ [esc, '\\'])) ++ [esc, '\\']))[2]? = some esc := rfl
    have h5 : tmuxHeader[2]? = some 't' := rfl
    rw [h4, h5] at h2
    have h6 : esc = 't' := by injection h2
    exact absurd h6 (by decide)

/-- C6 witness at a concrete STY value. -/
theorem claim6_witness :
    copyToClipboard [104] ⟨some ⟨true⟩, none⟩ ⟨none, some ['s']⟩ ⟨false⟩
      = (true, some ([esc, 'P'] ++ doubleEsc (oscBase 'c' [104]) ++ [esc, '\\']))
    ∧ (screenWrap (oscBase 'c' [104])).take 2 = [esc, 'P']
    ∧ (screenWrap (oscBase 'c' [104])).take 7 ≠ tmuxHeader :=
  claim6_theorem [104] ⟨some ⟨true⟩, none⟩ ⟨none, some ['s']⟩ ⟨false⟩ ['s']
    rfl rfl (by decide) rfl

/-- C6 counterexample: the STY variable set to the empty string is present,
yet the code treats it as falsy and writes the bare base sequence, which does
not begin with ESC P. -/
theorem claim6_counterexample :
    copyToClipboard [104] ⟨some ⟨true⟩, none⟩ ⟨none, some []⟩ ⟨false⟩
      = (true, some (oscBase 'c' [104]))
    ∧ (oscBase 'c' [104]).take 2 ≠ [esc, 'P'] := by
  constructor
  · rfl
  · decide

/-- C8 (amended): a malformed, separator-free TMUX value never faults — both
functions still gate only on the TTY and return true with a written
sequence — but only the empty value degrades to the unwrapped base sequence;
a non-empty separator-free value is treated as nesting depth 1 and wrapped
once. -/
theorem claim8_theorem (text : List Nat) (opts : ClipboardOptions) (env : Env)
    (stdout : OutStream) (v : List Char)
    (htmux : env.tmux = some v) (hnosep : v.count ',' = 0) (hsty : env.sty = none)
    (htty : (opts.stream.getD stdout).isTTY = true) :
    copyToClipboard text opts env stdout
      = (true, some (if v = [] then oscBase (opts.target.getD 'c') text
          else tmuxWrap 1 (oscBase (opts.target.getD 'c') text)))
    ∧ clearClipboard opts env stdout
      = (true, some (if v = [] then oscClear (opts.target.getD 'c')
          else tmuxWrap 1 (oscClear (opts.target.getD 'c')))) := by
  constructor
  · by_cases hv : v = []
    · subst hv
      rw [if_pos rfl]
      unfold copyToClipboard
      simp [htty, htmux, hsty, jsTruthy]
    · rw [if_neg hv, copy_eval_tmux text opts env stdout v htmux hv htty, hnosep]
  · by_cases hv : v = []
    · subst hv
      rw [if_pos rfl]
      unfold clearClipboard
      simp [htty, htmux, hsty, jsTruthy]
    · rw [if_neg hv, clear_eval_tmux opts env stdout v htmux hv htty, hnosep]

/-- C8 witness at the separator-free TMUX value x. -/
theorem claim8_witness :
    copyToClipboard [104] ⟨some ⟨true⟩, none⟩ ⟨some ['x'], none⟩ ⟨false⟩
      = (true, some (if (['x'] : List Char) = [] then oscBase 'c' [104]
          else tmuxWrap 1 (oscBase 'c' [104])))
    ∧ clearClipboard ⟨some ⟨true⟩, none⟩ ⟨some ['x'], none⟩ ⟨false⟩
      = (true, some (if (['x'] : List Char) = [] then oscClear 'c'
          else tmuxWrap 1 (oscClear 'c'))) :=
  claim8_theorem [104] ⟨some ⟨true⟩, none⟩ ⟨some ['x'], none⟩ ⟨false⟩ ['x']
    rfl (by decide) rfl rfl

/-- C8 counterexample: at the malformed separator-free TMUX value x the code
does not degrade to the unwrapped base sequence — it writes the base sequence
wrapped once. -/
theorem claim8_counterexample :
    copyToClipboard [104] ⟨some ⟨true⟩, none⟩ ⟨some ['x'], none⟩ ⟨false⟩
      = (true, some (tmuxWrap 1 (oscBase 'c' [104])))
    ∧ tmuxWrap 1 (oscBase 'c' [104]) ≠ oscBase 'c' [104] := by
  constructor
  · rfl
  · decide

/-- C9 (amended: the tmux value must also be truthy, that is non-empty): when
both multiplexer variables are set and the TMUX value is non-empty, both
functions apply only the tmux passthrough wrapping, whatever the STY value. -/
theorem claim9_theorem (text : List Nat) (opts : ClipboardOptions) (env : Env)
    (stdout : OutStream) (v w : List Char)
    (htmux : env.tmux = some v) (hv : v ≠ []) (hsty : env.sty = some w)
    (htty : (opts.stream.getD stdout).isTTY = true) :
    copyToClipboard text opts env stdout
      = (true, some (tmuxWrap (v.count ',' + 1) (oscBase (opts.target.getD 'c') text)))
    ∧ clearClipboard opts env stdout
      = (true, some (tmuxWrap (v.count ',' + 1) (oscClear (opts.target.getD 'c')))) :=
  ⟨copy_eval_tmux text opts env stdout v htmux hv htty,
    clear_eval_tmux opts env stdout v htmux hv htty⟩

/-- C9 witness at concrete values of both variables. -/
theorem claim9_witness :
    copyToClipboard [104] ⟨some ⟨true⟩, none⟩ ⟨some ['a'], some ['b']⟩ ⟨false⟩
      = (true, some (tmuxWrap 1 (oscBase 'c' [104])))
    ∧ clearClipboard ⟨some ⟨true⟩, none⟩ ⟨some ['a'], some ['b']⟩ ⟨false⟩
      = (true, some (tmuxWrap 1 (oscClear 'c'))) :=
  claim9_theorem [104] ⟨some ⟨true⟩, none⟩ ⟨some ['a'], some ['b']⟩ ⟨false⟩
    ['a'] ['b'] rfl (by decide) rfl rfl

/-- C9 counterexample: with the TMUX variable present but empty and the STY
variable present and non-empty, the screen wrapping branch is applied: the
written sequence is the screen passthrough, which is not a tmux wrap and does
not start with the tmux header. -/
theorem claim9_counterexample :
    copyToClipboard [104] ⟨some ⟨true⟩, none⟩ ⟨some [], some ['b']⟩ ⟨false⟩
      = (true, some (screenWrap (oscBase 'c' [104])))
    ∧ screenWrap (oscBase 'c' [104]) ≠ tmuxWrap 1 (oscBase 'c' [104])
    ∧ (screenWrap (oscBase 'c' [104])).take 7 ≠ tmuxHeader := by
  refine ⟨rfl, by decide, by decide⟩
